import Mathlib

/-!
Verification of the GROMACS non-bonded pair-interaction assembly kernels
(`nb_kernel030_x86_64_sse`, `nb_kernel232_x86_64_sse2`, `nb_kernel312_x86_64_sse2`).

The kernels are hand-written SSE/SSE2 assembly.  We shallowly embed their
arithmetic over exact rationals (ℚ): every SSE lane operation is an exact
field operation, `rsqrtps` hardware seeds are modelled by an arbitrary seed
function, and `cvttps2pi` truncation of a non-negative scaled distance is
modelled by the integer floor.  Stateful parts (the lock-free work counter,
the force and energy arrays) are modelled by explicit state passing over
total functions `ℕ → _`.  The SIMD batching of the inner loop is modelled
exactly where a claim is about lanes (the tail paths) and scalarized — one
j partner at a time, which over exact arithmetic produces the same sums as
the 4-wide lane accumulators — where a claim is about per-entry structure.

The file has two parts: all definitions first, then all theorems.
-/

namespace NB

/-- Three-component force/position vector, one slot of the `pos`/`faction`
arrays, with exact rational components. -/
@[ext]
structure Vec3 where
  x : ℚ
  y : ℚ
  z : ℚ
  deriving DecidableEq

instance : Zero Vec3 := ⟨⟨0, 0, 0⟩⟩

instance : Add Vec3 := ⟨fun a b => ⟨a.x + b.x, a.y + b.y, a.z + b.z⟩⟩

instance : Sub Vec3 := ⟨fun a b => ⟨a.x - b.x, a.y - b.y, a.z - b.z⟩⟩

instance : Neg Vec3 := ⟨fun a => ⟨-a.x, -a.y, -a.z⟩⟩

/-- Componentwise scaling of a displacement vector by a scalar force factor,
as the kernels do with `mulps`/`mulpd` on a splatted scalar. -/
def Vec3.smul (c : ℚ) (v : Vec3) : Vec3 := ⟨c * v.x, c * v.y, c * v.z⟩

/-! ### Reciprocal square root refinement (source for claim C6)

`nb_kernel030_x86_64_sse` lines 353-362: `rsqrtps` produces the lookup seed
`lu`; then `xmm5 := lu*lu`, `xmm5 := xmm5*rsq`, `xmm1 := three - xmm5`,
`xmm1 := xmm1*lu`, `xmm0 := half*xmm1` — exactly one refinement step.

`nb_kernel232_x86_64_sse2` lines 583-618: the same block appears twice in
sequence (`iter1` then `rinv`), each of the form
`((three - rsq*lu*lu) * lu) * half` — exactly two refinement steps. -/

/-- Single-precision kernel `nb030` refinement: one step,
`rinv = half * ((three - lu*lu*rsq) * lu)`. -/
def nb030_rinv (rsq lu : ℚ) : ℚ := (1 / 2) * ((3 - lu * lu * rsq) * lu)

/-- Double-precision kernel `nb232` refinement: the literal two-block
sequence (lines 590-602 produce `iter1`, lines 605-617 refine it again). -/
def nb232_rinv (rsq lu : ℚ) : ℚ :=
  let iter1 := ((3 - lu * lu * rsq) * lu) * (1 / 2)
  ((3 - iter1 * iter1 * rsq) * iter1) * (1 / 2)

/-- The spec's Newton-Raphson step form `y' = y * (1.5 - 0.5 * x * y²)`. -/
def nrSpecStep (rsq y : ℚ) : ℚ := y * (3 / 2 - (1 / 2) * rsq * (y * y))

/-! ### Reaction-field Coulomb (source for claim C3)

`nb_kernel232_x86_64_sse2` lines 767-783 (OO interaction):
`xmm7 := rinv`, `xmm5 := krf*rsq` (`krsq`), `xmm6 := krsq + rinv - crf`,
`xmm6 := xmm6 * qqOO` (the energy `vcoul`), `xmm5 := 2*krsq`,
`xmm7 := rinv - 2*krsq`, `xmm7 := xmm7*qqOO`, `xmm7 := xmm7*rinv`
(stored as `fstmp`); lines 880-889: the final scalar force factor is
`fscal = rinv * (fstmp - table terms)`, so the reaction-field contribution
to `fscal` is `fstmp * rinv`. -/

/-- Reaction-field Coulomb energy exactly as coded:
`vcoul = ((krf*rsq + rinv) - crf) * qq`. -/
def rfVcoul (qq rinv rsq krf crf : ℚ) : ℚ := ((krf * rsq + rinv) - crf) * qq

/-- Reaction-field partial force factor as coded (`fstmp`):
`((rinv - 2*(krf*rsq)) * qq) * rinv`. -/
def rfFstmp (qq rinv rsq krf : ℚ) : ℚ := ((rinv - 2 * (krf * rsq)) * qq) * rinv

/-- Reaction-field contribution to the final scalar force factor: the kernel
multiplies `fstmp` by `rinv` once more when forming `fscal`. -/
def rfFscal (qq rinv rsq krf : ℚ) : ℚ := rfFstmp qq rinv rsq krf * rinv

/-! ### Lennard-Jones by successive squaring (source for claim C5)

`nb_kernel312_x86_64_sse2` lines 818-838 (OO interaction):
`xmm2 := rinv*rinv`, `xmm1 := xmm2*xmm2`, `xmm1 := xmm1*xmm2` (`rinvsix`),
`xmm2 := rinvsix*rinvsix` (`rinvtwelve`), `xmm1 := rinvsix*c6`,
`xmm2 := rinvtwelve*c12`, `Vvdw += xmm2 - xmm1`, `xmm1 *= six`,
`xmm2 *= twelve`, `xmm2 := xmm2 - xmm1`, `xmm2 *= rinv`,
`xmm2 -= fijC*tsc`, `fscal := rinv*xmm2`. -/

/-- `rinv⁶` by successive squaring exactly as coded. -/
def nb312_rinvsix (rinv : ℚ) : ℚ :=
  let r2 := rinv * rinv
  r2 * r2 * r2

/-- `rinv¹²` as the square of `rinvsix`. -/
def nb312_rinvtwelve (rinv : ℚ) : ℚ := nb312_rinvsix rinv * nb312_rinvsix rinv

/-- Van-der-Waals pair energy as coded: `rinvtwelve*c12 - rinvsix*c6`. -/
def nb312_VvdwPair (c6 c12 rinv : ℚ) : ℚ :=
  nb312_rinvtwelve rinv * c12 - nb312_rinvsix rinv * c6

/-- Full OO scalar force factor as coded, with `fijC` the tabulated Coulomb
force factor: `fscal = rinv * ((12*c12*r⁻¹² - 6*c6*r⁻⁶)*rinv - fijC*tsc)`. -/
def nb312_fscalOO (c6 c12 rinv fijC tsc : ℚ) : ℚ :=
  rinv * ((nb312_rinvtwelve rinv * c12 * 12 - nb312_rinvsix rinv * c6 * 6) * rinv
    - fijC * tsc)

/-! ### Cubic spline table lookup (source for claim C4)

`nb_kernel030_x86_64_sse` lines 363-426 and `nb_kernel312_x86_64_sse2`
lines 767-816: `r*tsc` is truncated (`cvttps2pi`) to the table index `n`
and the remainder `eps = r*tsc - n`; with table row `(Y, F, G, H)`:
`Geps := G*eps`, `Heps2 := H*eps²`, `Fp := F + Geps + Heps2`,
`FF := two*Heps2 + Geps + Fp`, `VV := eps*Fp + Y`; `VV` and `FF` are then
multiplied by the coupling coefficient (`c6`, `c12` or `qq`), and the force
term additionally by the table scale `tsc`. -/

/-- One row of spline coefficients `(Y, F, G, H)` of the interpolation
table `VFtab`. -/
structure SplineRow where
  Y : ℚ
  F : ℚ
  G : ℚ
  H : ℚ
  deriving DecidableEq

/-- Table index: truncation of the non-negative scaled distance `rt = r*tsc`
(`cvttps2pi` truncates toward zero, which is the floor for `rt ≥ 0`). -/
def tabIndex (rt : ℚ) : ℕ := ⌊rt⌋.toNat

/-- Fractional table offset `eps = rt - n`. -/
def tabEps (rt : ℚ) : ℚ := rt - (tabIndex rt : ℚ)

/-- Potential table value exactly as coded: `VV = eps*Fp + Y` with
`Fp = F + G*eps + H*eps²`. -/
def tabVV (c : SplineRow) (eps : ℚ) : ℚ :=
  let Geps := c.G * eps
  let Heps2 := c.H * (eps * eps)
  let Fp := c.F + Geps + Heps2
  eps * Fp + c.Y

/-- Force table value exactly as coded: `FF = two*Heps2 + Geps + Fp`. -/
def tabFF (c : SplineRow) (eps : ℚ) : ℚ :=
  let Geps := c.G * eps
  let Heps2 := c.H * (eps * eps)
  let Fp := c.F + Geps + Heps2
  2 * Heps2 + Geps + Fp

/-! ### Newton's third law force update (source for claim C2)

`nb_kernel030_x86_64_sse` lines 477-534: `tx/ty/tz := fscal * dx/dy/dz`;
the i-force accumulators get `fix += tx` etc., and the j slots of `faction`
get `fjx := fjx - tx` etc.  `nb_kernel312_x86_64_sse2` lines 843-860 (OO):
the j accumulators are seeded with `0 - t` while `fiO += t`. -/

/-- The `nb030` unroll-loop force update for one site pair: the vector
`t = fscal • (xi - xj)` is added to the local i accumulator and subtracted
from the j slot of the force array. -/
def nb030_forceUpdate (fscal : ℚ) (xi xj fi fj : Vec3) : Vec3 × Vec3 :=
  let t := Vec3.smul fscal (xi - xj)
  (fi + t, fj - t)

/-- The `nb312` OO force update: `fiO += t` and the j accumulator is seeded
with `0 - t`. -/
def nb312_forceUpdateOO (fscal : ℚ) (xi xj fi : Vec3) : Vec3 × Vec3 :=
  let t := Vec3.smul fscal (xi - xj)
  (fi + t, (0 : Vec3) - t)

/-! ### Lock-free work-stealing scheduler (source for claim C1)

`nb_kernel030_x86_64_sse` lines 156-181 (`.nb030_threadloop`/`.nb030_spinlock`):
each thread reads the shared counter into `nn0`, attempts
`lock cmpxchg` of `nn0 → nn0 + 1` (retrying on contention, so each
successful claim is an atomic fetch-and-add of the chunk size), clamps
`nn1 = min (nn0 + chunk) nri`, processes `[nn0, nn1)` when non-empty and
otherwise jumps to `.nb030_end`; lines 1002-1019 (`.nb030_outerend`): after
processing, a thread whose `nn1 = nri` terminates, otherwise it claims
again.  A thread therefore stays live after a claim iff `nn0 + chunk < nri`.
The source uses chunk size 1 (`add ebx, 1`); we keep the chunk size as a
parameter `chunk` with `0 < chunk` as in the claim.  Since the CAS retry
loop serializes claims, the concurrent execution is modelled by an
arbitrary interleaving (a schedule list of thread ids), each entry being
one atomic successful claim. -/

/-- Scheduler state: the shared work counter, the set of outer-entry
indices each thread has claimed so far, and whether each thread is still
live (has not reached `.nb030_end`). -/
structure SchedState (T : ℕ) where
  ctr : ℕ
  claimed : Fin T → Finset ℕ
  live : Fin T → Bool

/-- Initial state: counter zero, nothing claimed, all threads live. -/
def initSched (T : ℕ) : SchedState T :=
  { ctr := 0, claimed := fun _ => ∅, live := fun _ => true }

/-- One successful claim by thread `i`: atomically bump the counter by the
chunk size, record the clamped range `[nn0, min (nn0+chunk) nri)`, and stay
live iff another non-empty range remains after this one
(`nn0 + chunk < nri`). -/
def claimStep {T : ℕ} (nri chunk : ℕ) (s : SchedState T) (i : Fin T) :
    SchedState T :=
  let nn0 := s.ctr
  let nn1 := min (nn0 + chunk) nri
  { ctr := nn0 + chunk
    claimed := Function.update s.claimed i (s.claimed i ∪ Finset.Ico nn0 nn1)
    live := fun j => if j = i then decide (nn0 + chunk < nri) else s.live j }

/-- Run a schedule: a list of thread ids, each performing one claim. -/
def runSched {T : ℕ} (nri chunk : ℕ) (s : SchedState T) :
    List (Fin T) → SchedState T
  | [] => s
  | i :: rest => runSched nri chunk (claimStep nri chunk s i) rest

/-- A schedule is effective when every scheduled thread is still live at its
turn (a dead thread never claims again in the source). -/
def effectiveRun {T : ℕ} (nri chunk : ℕ) (s : SchedState T) :
    List (Fin T) → Bool
  | [] => true
  | i :: rest => s.live i && effectiveRun nri chunk (claimStep nri chunk s i) rest

/-- Scheduler invariant: claimed ranges are pairwise disjoint, their union
is exactly the dispensed prefix `[0, min ctr nri)`, and a dead thread
certifies that the counter has passed `nri`. -/
structure SchedInv {T : ℕ} (nri : ℕ) (s : SchedState T) : Prop where
  hdisj : ∀ i j : Fin T, i ≠ j → Disjoint (s.claimed i) (s.claimed j)
  hunion : Finset.univ.biUnion s.claimed = Finset.Ico 0 (min s.ctr nri)
  hdead : ∀ i : Fin T, s.live i = false → nri ≤ s.ctr

/-- Number of live threads. -/
def liveCount {T : ℕ} (s : SchedState T) : ℕ :=
  (Finset.univ.filter fun i => s.live i = true).card

/-- Termination measure: undispensed work plus live threads. -/
def schedMeasure {T : ℕ} (nri : ℕ) (s : SchedState T) : ℕ :=
  (nri - s.ctr) + liveCount s

/-! ### Scalar single-pair evaluation of the `nb030` kernel

The arithmetic performed for one (i, j) site pair on one SIMD lane of
`nb_kernel030_x86_64_sse` (tabulated dispersion + repulsion, no Coulomb):
lines 252-534 (unrolled loop) and 766-929 (`.nb030_dosingle`).  The SSE
lane arithmetic on one lane is this scalar computation. -/

/-- Read-only context of the `nb030` inner loop for one outer entry:
the splatted shifted i coordinates (`nb030_ix/iy/iz`), the per-entry type
row offset `ntia`, the particle type and Lennard-Jones parameter arrays,
the position array, the flat interpolation table `VFtab` (eight floats per
index: dispersion `Y F G H` then repulsion `Y F G H`, matching the
`pslld mm6, 3` index scaling), the table scale, and the hardware
reciprocal-sqrt seed function modelling `rsqrtps`. -/
structure InnerCtx where
  ixv : Vec3
  ntia : ℕ
  typ : ℕ → ℕ
  vdwparam : ℕ → ℚ
  pos : ℕ → Vec3
  VFtab : ℕ → ℚ
  tsc : ℚ
  seed : ℚ → ℚ

/-- Dispersion spline row at table index `n` (flat offsets `8n .. 8n+3`). -/
def dispRow (ctx : InnerCtx) (n : ℕ) : SplineRow :=
  ⟨ctx.VFtab (8 * n), ctx.VFtab (8 * n + 1), ctx.VFtab (8 * n + 2),
    ctx.VFtab (8 * n + 3)⟩

/-- Repulsion spline row at table index `n` (flat offsets `8n+4 .. 8n+7`). -/
def repRow (ctx : InnerCtx) (n : ℕ) : SplineRow :=
  ⟨ctx.VFtab (8 * n + 4), ctx.VFtab (8 * n + 5), ctx.VFtab (8 * n + 6),
    ctx.VFtab (8 * n + 7)⟩

/-- Lennard-Jones `c6` for partner `j`: `vdwparam[2*type[j] + ntia]`
(`shl ecx, 1; add ecx, ntia; movlps [vdwparam + rcx*4]`). -/
def pairC6 (ctx : InnerCtx) (j : ℕ) : ℚ := ctx.vdwparam (2 * ctx.typ j + ctx.ntia)

/-- Lennard-Jones `c12` for partner `j`: the float after `c6`. -/
def pairC12 (ctx : InnerCtx) (j : ℕ) : ℚ :=
  ctx.vdwparam (2 * ctx.typ j + ctx.ntia + 1)

/-- Scalar evaluation of one site pair in `nb030`: displacement, squared
distance, one Newton-Raphson-refined reciprocal distance, `r = rsq*rinv`,
table lookup of dispersion and repulsion, scalar force
`fscal = 0 - (fijR + fijD)*tsc*rinv`, force vector `t = fscal • d`, and
the van-der-Waals energy contribution `VV6 + VV12`.  Returns `(t, energy)`. -/
def pairEval (ctx : InnerCtx) (j : ℕ) : Vec3 × ℚ :=
  let d := ctx.ixv - ctx.pos j
  let rsq := d.x * d.x + d.y * d.y + d.z * d.z
  let rinv := nb030_rinv rsq (ctx.seed rsq)
  let rt := rsq * rinv * ctx.tsc
  let n := tabIndex rt
  let eps := tabEps rt
  let c6 := pairC6 ctx j
  let c12 := pairC12 ctx j
  let fijD := tabFF (dispRow ctx n) eps * c6
  let vv6 := tabVV (dispRow ctx n) eps * c6
  let fijR := tabFF (repRow ctx n) eps * c12
  let vv12 := tabVV (repRow ctx n) eps * c12
  let fscal := 0 - (fijR + fijD) * ctx.tsc * rinv
  (Vec3.smul fscal d, vv6 + vv12)

/-! ### Outer-entry processing of `nb030` (source for claims C8, C9)

`nb_kernel030_x86_64_sse` lines 187-251 (`.nb030_outer`): load the shift
vector, add it to the i coordinates, compute `ntia`, zero the per-entry
accumulators `Vvdwtot`/`fix`/`fiy`/`fiz`, and set up the inner j range from
`jindex[n]`/`jindex[n+1]`; lines 930-1000 (`.nb030_updateouterdata`):
horizontally sum the i-force accumulators and add the resulting vector once
to `faction` at the i particle and once to `fshift` at the entry's shift
index, then add the summed `Vvdwtot` into `Vvdw[gid[n]]`.  The inner loop
is modelled one j at a time (exact arithmetic makes the 4-wide lane
accumulators sum to the same totals). -/

/-- Inner-loop accumulator state: the per-entry local i-force accumulator
(`fix/fiy/fiz`), the per-entry energy accumulator `Vvdwtot`, and the global
j-force array `faction` that the loop read-modify-writes. -/
structure InnerAcc where
  fi : Vec3
  Vvdwtot : ℚ
  faction : ℕ → Vec3

/-- One inner-loop iteration: evaluate the pair, add `t` to the local
i accumulator, add the energy to `Vvdwtot`, subtract `t` from the j slot
of `faction`. -/
def innerStep (ctx : InnerCtx) (a : InnerAcc) (j : ℕ) : InnerAcc :=
  let t := (pairEval ctx j).1
  let v := (pairEval ctx j).2
  { fi := a.fi + t
    Vvdwtot := a.Vvdwtot + v
    faction := Function.update a.faction j (a.faction j - t) }

/-- The whole inner loop over the entry's j-partner list. -/
def innerLoop (ctx : InnerCtx) (a : InnerAcc) (js : List ℕ) : InnerAcc :=
  js.foldl (innerStep ctx) a

/-- Kernel-invocation inputs of `nb030` (the argument arrays). -/
structure KernelParams where
  pos : ℕ → Vec3
  typ : ℕ → ℕ
  vdwparam : ℕ → ℚ
  ntype : ℕ
  VFtab : ℕ → ℚ
  tsc : ℚ
  seed : ℚ → ℚ
  shiftIdx : ℕ → ℕ
  shiftvec : ℕ → Vec3
  iinr : ℕ → ℕ
  jindex : ℕ → ℕ
  jjnr : ℕ → ℕ
  gid : ℕ → ℕ

/-- The contiguous j-partner list of outer entry `n`:
`jjnr[jindex[n]], …, jjnr[jindex[n+1] - 1]`. -/
def entryJs (P : KernelParams) (n : ℕ) : List ℕ :=
  (List.range (P.jindex (n + 1) - P.jindex n)).map fun k =>
    P.jjnr (P.jindex n + k)

/-- The inner context of outer entry `n`: shifted i coordinates
(`shiftvec[3*shift[n]] + pos[3*iinr[n]]`) and
`ntia = 2*(type[iinr[n]] * ntype)`. -/
def mkInnerCtx (P : KernelParams) (n : ℕ) : InnerCtx :=
  let ii := P.iinr n
  { ixv := P.shiftvec (P.shiftIdx n) + P.pos ii
    ntia := 2 * (P.typ ii * P.ntype)
    typ := P.typ
    vdwparam := P.vdwparam
    pos := P.pos
    VFtab := P.VFtab
    tsc := P.tsc
    seed := P.seed }

/-- Global output arrays of the kernel: the force array, the per-shift
force-shift array, and the per-energy-group van-der-Waals energy array. -/
structure OuterArrays where
  faction : ℕ → Vec3
  fshift : ℕ → Vec3
  Vvdw : ℕ → ℚ

/-- Result of the inner loop of outer entry `n`, started from freshly
zeroed per-entry accumulators (as `.nb030_outer` zeroes
`Vvdwtot`/`fix`/`fiy`/`fiz`). -/
def entryInner (P : KernelParams) (A : OuterArrays) (n : ℕ) : InnerAcc :=
  innerLoop (mkInnerCtx P n)
    { fi := 0, Vvdwtot := 0, faction := A.faction } (entryJs P n)

/-- Process one outer entry: run the inner loop from zeroed accumulators,
then (`.nb030_updateouterdata`) add the summed i-force once to `faction` at
the i particle, once to `fshift` at the entry's shift index, and the summed
energy into `Vvdw[gid[n]]`. -/
def processOuter (P : KernelParams) (A : OuterArrays) (n : ℕ) : OuterArrays :=
  let ii := P.iinr n
  let is := P.shiftIdx n
  let r := entryInner P A n
  { faction := Function.update r.faction ii (r.faction ii + r.fi)
    fshift := Function.update A.fshift is (A.fshift is + r.fi)
    Vvdw := Function.update A.Vvdw (P.gid n) (A.Vvdw (P.gid n) + r.Vvdwtot) }

/-! ### Rigid-water parameter setup (source for claim C10)

`nb_kernel312_x86_64_sse2` (part_000) lines 239-277 and
`nb_kernel232_x86_64_sse2` lines 241-278, identical code: before
`.nb312_threadloop`/`.nb232_threadloop`, `ebx := iinr[0]`,
`qO := charge[ii]`, `qH := charge[ii+1]`,
`qqOO := qO*qO*facel`, `qqOH := qO*qH*facel`, `qqHH := qH*qH*facel`,
`ntia := 2*ntype*type[ii]`, `c6 := vdwparam[2*type[ii] + ntia]`,
`c12 := vdwparam[2*type[ii] + ntia + 1]`.  These stack constants are the
only charge/type data the inner loops ever read. -/

/-- The per-invocation interaction constants of the rigid-water kernels. -/
structure WaterParams where
  qqOO : ℚ
  qqOH : ℚ
  qqHH : ℚ
  c6 : ℚ
  c12 : ℚ
  deriving DecidableEq

/-- Water-kernel setup, executed once before the thread loop, reading only
`charge[iinr[0]]`, `charge[iinr[0]+1]` and `type[iinr[0]]`. -/
def waterSetup (charge : ℕ → ℚ) (typ : ℕ → ℕ) (vdwparam : ℕ → ℚ)
    (facel : ℚ) (ntype : ℕ) (iinr : ℕ → ℕ) : WaterParams :=
  let ii := iinr 0
  let qO := charge ii
  let qH := charge (ii + 1)
  { qqOO := qO * qO * facel
    qqOH := qO * qH * facel
    qqHH := qH * qH * facel
    c6 := vdwparam (2 * typ ii + 2 * typ ii * ntype)
    c12 := vdwparam (2 * typ ii + 2 * typ ii * ntype + 1) }

/-- Tabulated Coulomb energy of one water site pair in `nb312`
(part_000 lines 766-816): `r = rinv*rsq`, scale by `tsc`, split index/eps
(`pslld mm6, 2`: four doubles per row), `vcoul = VV*qq`; `rinv` is the
double-precision two-step refinement. -/
def sitePairVcoulTab (tab : ℕ → SplineRow) (tsc : ℚ) (seed : ℚ → ℚ)
    (qq : ℚ) (xi xj : Vec3) : ℚ :=
  let d := xi - xj
  let rsq := d.x * d.x + d.y * d.y + d.z * d.z
  let rinv := nb232_rinv rsq (seed rsq)
  let rt := rinv * rsq * tsc
  tabVV (tab (tabIndex rt)) (tabEps rt) * qq

/-- Reciprocal OO distance of a water cluster pair in `nb312`. -/
def clusterRinvOO (seed : ℚ → ℚ) (xiO xjO : Vec3) : ℚ :=
  let d := xiO - xjO
  let rsq := d.x * d.x + d.y * d.y + d.z * d.z
  nb232_rinv rsq (seed rsq)

/-- Energy contributions of one water-water cluster pair in `nb312`: the
nine tabulated Coulomb site pairs (OO with `qqOO`, OH1/OH2/H1O/H2O with
`qqOH`, H1H1/H1H2/H2H1/H2H2 with `qqHH`) and the analytic Lennard-Jones
OO term with the single `(c6, c12)` pair.  Sites of a cluster with base
particle id `b` are `b`, `b+1`, `b+2`.  Returns `(vctot, Vvdwtot)`
contributions. -/
def waterClusterEnergy (W : WaterParams) (tab : ℕ → SplineRow) (tsc : ℚ)
    (seed : ℚ → ℚ) (pos : ℕ → Vec3) (bi bj : ℕ) : ℚ × ℚ :=
  let iO := pos bi
  let iH1 := pos (bi + 1)
  let iH2 := pos (bi + 2)
  let jO := pos bj
  let jH1 := pos (bj + 1)
  let jH2 := pos (bj + 2)
  let vc :=
    sitePairVcoulTab tab tsc seed W.qqOO iO jO +
    sitePairVcoulTab tab tsc seed W.qqOH iO jH1 +
    sitePairVcoulTab tab tsc seed W.qqOH iO jH2 +
    sitePairVcoulTab tab tsc seed W.qqOH iH1 jO +
    sitePairVcoulTab tab tsc seed W.qqHH iH1 jH1 +
    sitePairVcoulTab tab tsc seed W.qqHH iH1 jH2 +
    sitePairVcoulTab tab tsc seed W.qqOH iH2 jO +
    sitePairVcoulTab tab tsc seed W.qqHH iH2 jH1 +
    sitePairVcoulTab tab tsc seed W.qqHH iH2 jH2
  (vc, nb312_VvdwPair W.c6 W.c12 (clusterRinvOO seed iO jO))

/-- Run of the `nb312` energy accumulation over a list of outer entries,
each an outer index paired with its j-cluster base list: the water
parameters are computed once from `iinr[0]` and used for every site pair of
every entry (the inner loop performs no per-j charge or type lookup). -/
def kernelWaterEnergies (charge : ℕ → ℚ) (typ : ℕ → ℕ) (vdwparam : ℕ → ℚ)
    (facel : ℚ) (ntype : ℕ) (iinr : ℕ → ℕ) (tab : ℕ → SplineRow) (tsc : ℚ)
    (seed : ℚ → ℚ) (pos : ℕ → Vec3) (entries : List (ℕ × List ℕ)) : ℚ × ℚ :=
  let W := waterSetup charge typ vdwparam facel ntype iinr
  entries.foldl
    (fun acc e =>
      e.2.foldl
        (fun acc2 bj =>
          let c := waterClusterEnergy W tab tsc seed pos (iinr e.1) bj
          (acc2.1 + c.1, acc2.2 + c.2))
        acc)
    (0, 0)

/-! ### The SIMD tail paths of `nb030` (source for claim C7)

`nb_kernel030_x86_64_sse` lines 540-546 (`.nb030_finish_inner`): after the
quad-unrolled loop, the remaining count `innerk ∈ {0,1,2,3}` is tested:
bit 1 set dispatches `.nb030_dopair` (lines 547-760, two j partners), then
bit 0 set dispatches `.nb030_dosingle` (lines 766-929, one j partner).

These paths run full-width SSE arithmetic with only some lanes holding real
data.  We model the four lanes explicitly as a `Quad`.  Lanes whose machine
content is stale register data (the upper lanes of `movss`/`movlps` loads,
the lanes of `cvtpi2ps` partial writes, and the repulsion-table shuffles
that pull from previously used registers) are modelled as arbitrary,
universally quantified junk values drawn from a supply `u : ℕ → ℚ`; the
tail-equivalence theorem holds for every junk assignment, which is exactly
the claim that garbage lanes are discarded before affecting a real lane.
In `.nb030_dopair` the j coordinates are shuffled so lanes 2,3 duplicate
lanes 0,1, the `c6`/`c12` quads have lanes 2,3 zeroed via `movlhps` with a
zeroed register, dispersion-table coefficient quads duplicate lanes 0,1,
and `Vvdwtot`/`fix`/`fiy`/`fiz` are updated full-width (`addps`); in
`.nb030_dosingle` only lane 0 is real, `c6`/`c12` have lanes 1-3 zeroed,
and the accumulators are updated with `addss` (lane 0 only). -/

/-- One SSE register of four single-precision lanes, modelled exactly. -/
structure Quad where
  e0 : ℚ
  e1 : ℚ
  e2 : ℚ
  e3 : ℚ

instance : Add Quad :=
  ⟨fun a b => ⟨a.e0 + b.e0, a.e1 + b.e1, a.e2 + b.e2, a.e3 + b.e3⟩⟩

instance : Sub Quad :=
  ⟨fun a b => ⟨a.e0 - b.e0, a.e1 - b.e1, a.e2 - b.e2, a.e3 - b.e3⟩⟩

instance : Mul Quad :=
  ⟨fun a b => ⟨a.e0 * b.e0, a.e1 * b.e1, a.e2 * b.e2, a.e3 * b.e3⟩⟩

/-- Splat a scalar to all four lanes (`shufps r, r, 0`). -/
def Quad.splat (c : ℚ) : Quad := ⟨c, c, c, c⟩

/-- Horizontal sum of the four lanes (`movhlps`/`shufps`/`addps`/`addss`
reduction of `.nb030_updateouterdata`). -/
def Quad.hsum (q : Quad) : ℚ := q.e0 + q.e1 + q.e2 + q.e3

/-- Four-lane spline force factor, the packed form of `tabFF` (the `Y`
column is loaded but unused by the force form, as in the scalar case). -/
def quadFF (_Yq Fq Gq Hq epsq : Quad) : Quad :=
  let Geps := Gq * epsq
  let Heps2 := Hq * (epsq * epsq)
  let Fp := Fq + Geps + Heps2
  Quad.splat 2 * Heps2 + Geps + Fp

/-- Four-lane spline potential, the packed form of `tabVV`. -/
def quadVV (Yq Fq Gq Hq epsq : Quad) : Quad :=
  let Geps := Gq * epsq
  let Heps2 := Hq * (epsq * epsq)
  let Fp := Fq + Geps + Heps2
  epsq * Fp + Yq

/-- Lanewise reciprocal-distance computation: `rsqrtps` seeds each lane and
one Newton-Raphson step refines each lane. -/
def rinvQuad (ctx : InnerCtx) (rsq : Quad) : Quad :=
  ⟨nb030_rinv rsq.e0 (ctx.seed rsq.e0), nb030_rinv rsq.e1 (ctx.seed rsq.e1),
    nb030_rinv rsq.e2 (ctx.seed rsq.e2), nb030_rinv rsq.e3 (ctx.seed rsq.e3)⟩

/-- State carried through the tail paths: the four-lane per-entry
accumulators `Vvdwtot`/`fix`/`fiy`/`fiz` and the j-force array. -/
structure TailState where
  Vvdwtot : Quad
  fix : Quad
  fiy : Quad
  fiz : Quad
  faction : ℕ → Vec3

/-- The five packed results a tail path computes for its j partners:
the force quads `tx`, `ty`, `tz` and the energy quads `vv6`, `vv12`. -/
structure PairQuads where
  tx : Quad
  ty : Quad
  tz : Quad
  vv6 : Quad
  vv12 : Quad

/-- The packed arithmetic of the `.nb030_dopair` path for the two remaining
partners `a`, `b`.  Lane layout per the shuffles of lines 547-759: real
data in lanes 0 (`a`) and 1 (`b`); j coordinates duplicated into lanes 2,3;
`c6`/`c12` with lanes 2,3 zeroed via `movlhps` with the zeroed register;
`eps` lanes 2,3 and repulsion-coefficient lanes 2,3 stale
(junk `u 0`-`u 9`). -/
def dopairQ (ctx : InnerCtx) (u : ℕ → ℚ) (a b : ℕ) : PairQuads :=
  let c6q : Quad := ⟨pairC6 ctx a, pairC6 ctx b, 0, 0⟩
  let c12q : Quad := ⟨pairC12 ctx a, pairC12 ctx b, 0, 0⟩
  let pa := ctx.pos a
  let pb := ctx.pos b
  let jx : Quad := ⟨pa.x, pb.x, pa.x, pb.x⟩
  let jy : Quad := ⟨pa.y, pb.y, pa.y, pb.y⟩
  let jz : Quad := ⟨pa.z, pb.z, pa.z, pb.z⟩
  let dx := Quad.splat ctx.ixv.x - jx
  let dy := Quad.splat ctx.ixv.y - jy
  let dz := Quad.splat ctx.ixv.z - jz
  let rsq := dx * dx + dy * dy + dz * dz
  let rinv := rinvQuad ctx rsq
  let rt := rsq * rinv * Quad.splat ctx.tsc
  let n0 := tabIndex rt.e0
  let n1 := tabIndex rt.e1
  let eps : Quad := ⟨tabEps rt.e0, tabEps rt.e1, u 0, u 1⟩
  let D0 := dispRow ctx n0
  let D1 := dispRow ctx n1
  let fijD := quadFF ⟨D0.Y, D1.Y, D0.Y, D1.Y⟩ ⟨D0.F, D1.F, D0.F, D1.F⟩
    ⟨D0.G, D1.G, D0.G, D1.G⟩ ⟨D0.H, D1.H, D0.H, D1.H⟩ eps * c6q
  let vv6 := quadVV ⟨D0.Y, D1.Y, D0.Y, D1.Y⟩ ⟨D0.F, D1.F, D0.F, D1.F⟩
    ⟨D0.G, D1.G, D0.G, D1.G⟩ ⟨D0.H, D1.H, D0.H, D1.H⟩ eps * c6q
  let R0 := repRow ctx n0
  let R1 := repRow ctx n1
  let fijR := quadFF ⟨R0.Y, R1.Y, u 2, u 3⟩ ⟨R0.F, R1.F, u 4, u 5⟩
    ⟨R0.G, R1.G, u 6, u 7⟩ ⟨R0.H, R1.H, u 8, u 9⟩ eps * c12q
  let vv12 := quadVV ⟨R0.Y, R1.Y, u 2, u 3⟩ ⟨R0.F, R1.F, u 4, u 5⟩
    ⟨R0.G, R1.G, u 6, u 7⟩ ⟨R0.H, R1.H, u 8, u 9⟩ eps * c12q
  let fij := fijR + fijD
  let fscal := Quad.splat 0 - fij * Quad.splat ctx.tsc * rinv
  { tx := dx * fscal
    ty := dy * fscal
    tz := dz * fscal
    vv6 := vv6
    vv12 := vv12 }

/-- The `.nb030_dopair` state update: `Vvdwtot` and the i-force
accumulators are updated full-width (`addps`); `faction` is
read-modified-written at `a` from lane 0, then at `b` from lane 1. -/
def dopair (ctx : InnerCtx) (u : ℕ → ℚ) (S : TailState) (a b : ℕ) :
    TailState :=
  let q := dopairQ ctx u a b
  let f1 := Function.update S.faction a
    (S.faction a - ⟨q.tx.e0, q.ty.e0, q.tz.e0⟩)
  { Vvdwtot := S.Vvdwtot + q.vv6 + q.vv12
    fix := S.fix + q.tx
    fiy := S.fiy + q.ty
    fiz := S.fiz + q.tz
    faction := Function.update f1 b (f1 b - ⟨q.tx.e1, q.ty.e1, q.tz.e1⟩) }

/-- The packed arithmetic of the `.nb030_dosingle` path for the one
remaining partner `a`.  Only lane 0 is real: the `movss` coordinate loads
leave lanes 1-3 stale (junk `u 0`-`u 8`), the partial `cvtpi2ps` leaves
`eps` lanes 1-3 stale (`u 9`-`u 11`), the table loads leave coefficient
lanes 1-3 stale (`u 12`-`u 35`); `c6`/`c12` quads have lanes 1-3
zeroed. -/
def dosingleQ (ctx : InnerCtx) (u : ℕ → ℚ) (a : ℕ) : PairQuads :=
  let c6q : Quad := ⟨pairC6 ctx a, 0, 0, 0⟩
  let c12q : Quad := ⟨pairC12 ctx a, 0, 0, 0⟩
  let pa := ctx.pos a
  let jx : Quad := ⟨pa.x, u 0, u 1, u 2⟩
  let jy : Quad := ⟨pa.y, u 3, u 4, u 5⟩
  let jz : Quad := ⟨pa.z, u 6, u 7, u 8⟩
  let dx := Quad.splat ctx.ixv.x - jx
  let dy := Quad.splat ctx.ixv.y - jy
  let dz := Quad.splat ctx.ixv.z - jz
  let rsq := dx * dx + dy * dy + dz * dz
  let rinv := rinvQuad ctx rsq
  let rt := rsq * rinv * Quad.splat ctx.tsc
  let n0 := tabIndex rt.e0
  let eps : Quad := ⟨tabEps rt.e0, u 9, u 10, u 11⟩
  let D0 := dispRow ctx n0
  let fijD := quadFF ⟨D0.Y, u 12, u 13, u 14⟩ ⟨D0.F, u 15, u 16, u 17⟩
    ⟨D0.G, u 18, u 19, u 20⟩ ⟨D0.H, u 21, u 22, u 23⟩ eps * c6q
  let vv6 := quadVV ⟨D0.Y, u 12, u 13, u 14⟩ ⟨D0.F, u 15, u 16, u 17⟩
    ⟨D0.G, u 18, u 19, u 20⟩ ⟨D0.H, u 21, u 22, u 23⟩ eps * c6q
  let R0 := repRow ctx n0
  let fijR := quadFF ⟨R0.Y, u 24, u 25, u 26⟩ ⟨R0.F, u 27, u 28, u 29⟩
    ⟨R0.G, u 30, u 31, u 32⟩ ⟨R0.H, u 33, u 34, u 35⟩ eps * c12q
  let vv12 := quadVV ⟨R0.Y, u 24, u 25, u 26⟩ ⟨R0.F, u 27, u 28, u 29⟩
    ⟨R0.G, u 30, u 31, u 32⟩ ⟨R0.H, u 33, u 34, u 35⟩ eps * c12q
  let fij := fijR + fijD
  let fscal := Quad.splat 0 - fij * Quad.splat ctx.tsc * rinv
  { tx := dx * fscal
    ty := dy * fscal
    tz := dz * fscal
    vv6 := vv6
    vv12 := vv12 }

/-- The `.nb030_dosingle` state update: the accumulators and `faction` are
updated from lane 0 only (`addss`, `movss`); the upper accumulator lanes
are preserved. -/
def dosingle (ctx : InnerCtx) (u : ℕ → ℚ) (S : TailState) (a : ℕ) :
    TailState :=
  let q := dosingleQ ctx u a
  { Vvdwtot := ⟨S.Vvdwtot.e0 + q.vv6.e0 + q.vv12.e0, S.Vvdwtot.e1,
      S.Vvdwtot.e2, S.Vvdwtot.e3⟩
    fix := ⟨S.fix.e0 + q.tx.e0, S.fix.e1, S.fix.e2, S.fix.e3⟩
    fiy := ⟨S.fiy.e0 + q.ty.e0, S.fiy.e1, S.fiy.e2, S.fiy.e3⟩
    fiz := ⟨S.fiz.e0 + q.tz.e0, S.fiz.e1, S.fiz.e2, S.fiz.e3⟩
    faction := Function.update S.faction a
      (S.faction a - ⟨q.tx.e0, q.ty.e0, q.tz.e0⟩) }

/-- The `.nb030_finish_inner` dispatcher: with `k` remaining j entries,
bit 1 of `k` dispatches `dopair` on the next two entries, then bit 0
dispatches `dosingle` on the next one, matching the `and edx, 2` /
`and edx, 1` tests. -/
def finishInner (ctx : InnerCtx) (upair usingle : ℕ → ℚ) (S : TailState)
    (ks : List ℕ) : TailState :=
  let k := ks.length
  let step1 :=
    if k &&& 2 ≠ 0 then
      match ks with
      | a :: b :: rest => (dopair ctx upair S a b, rest)
      | _ => (S, ks)
    else (S, ks)
  if k &&& 1 ≠ 0 then
    match step1.2 with
    | a :: _ => dosingle ctx usingle step1.1 a
    | [] => step1.1
  else step1.1

/-- Observable content of a tail state: horizontally summed accumulators
(as `.nb030_updateouterdata` reduces them) plus the force array. -/
def tailObs (S : TailState) : InnerAcc :=
  { fi := ⟨S.fix.hsum, S.fiy.hsum, S.fiz.hsum⟩
    Vvdwtot := S.Vvdwtot.hsum
    faction := S.faction }

/-- All-zero tail state over a zero force array. -/
def zeroTail : TailState :=
  { Vvdwtot := ⟨0, 0, 0, 0⟩
    fix := ⟨0, 0, 0, 0⟩
    fiy := ⟨0, 0, 0, 0⟩
    fiz := ⟨0, 0, 0, 0⟩
    faction := fun _ => 0 }

/-! ### Concrete instances used by witnesses -/

/-- Kernel parameters with empty inner range for every outer entry. -/
def emptyJParams : KernelParams :=
  { pos := fun _ => 0
    typ := fun _ => 0
    vdwparam := fun _ => 0
    ntype := 1
    VFtab := fun _ => 0
    tsc := 1
    seed := fun _ => 0
    shiftIdx := fun _ => 0
    shiftvec := fun _ => 0
    iinr := fun _ => 0
    jindex := fun _ => 0
    jjnr := fun _ => 0
    gid := fun _ => 0 }

/-- Kernel parameters whose outer entry 0 has the single j partner `5`. -/
def oneJParams : KernelParams :=
  { pos := fun _ => 0
    typ := fun _ => 0
    vdwparam := fun _ => 0
    ntype := 1
    VFtab := fun _ => 0
    tsc := 1
    seed := fun _ => 0
    shiftIdx := fun _ => 0
    shiftvec := fun _ => 0
    iinr := fun _ => 0
    jindex := fun n => n
    jjnr := fun _ => 5
    gid := fun _ => 0 }

/-- Zero output arrays. -/
def zeroArrays : OuterArrays :=
  { faction := fun _ => 0, fshift := fun _ => 0, Vvdw := fun _ => 0 }

/-! ## Theorems -/

@[simp] theorem Vec3.add_def (a b : Vec3) :
    a + b = ⟨a.x + b.x, a.y + b.y, a.z + b.z⟩ := rfl

@[simp] theorem Vec3.sub_def (a b : Vec3) :
    a - b = ⟨a.x - b.x, a.y - b.y, a.z - b.z⟩ := rfl

@[simp] theorem Vec3.neg_def (a : Vec3) : -a = ⟨-a.x, -a.y, -a.z⟩ := rfl

@[simp] theorem Vec3.zero_def : (0 : Vec3) = ⟨0, 0, 0⟩ := rfl

@[simp] theorem Vec3.smul_def (c : ℚ) (v : Vec3) :
    Vec3.smul c v = ⟨c * v.x, c * v.y, c * v.z⟩ := rfl

@[simp] theorem Vec3.add_zero (v : Vec3) : v + (0 : Vec3) = v := by
  ext <;> simp

@[simp] theorem Vec3.zero_add (v : Vec3) : (0 : Vec3) + v = v := by
  ext <;> simp

/-- C6: the single-precision kernel applies exactly one Newton-Raphson
refinement step to the hardware seed and the double-precision kernel exactly
two, and each coded block `half*((three - rsq*y*y)*y)` is algebraically the
step `y' = y*(1.5 - 0.5*x*y²)` built from the precomputed constants `half`
and `three`. -/
theorem rsqrt_iteration_count_and_form (rsq lu : ℚ) :
    nb030_rinv rsq lu = (nrSpecStep rsq)^[1] lu ∧
    nb232_rinv rsq lu = (nrSpecStep rsq)^[2] lu ∧
    (∀ y : ℚ, (1 / 2) * ((3 - rsq * (y * y)) * y) = nrSpecStep rsq y) := by
  refine ⟨?_, ?_, ?_⟩
  · rw [Function.iterate_one]
    unfold nb030_rinv nrSpecStep
    ring
  · rw [show (2 : ℕ) = 1 + 1 from rfl, Function.iterate_add_apply,
      Function.iterate_one]
    unfold nb232_rinv nrSpecStep
    ring
  · intro y
    unfold nrSpecStep
    ring

/-- C3: with `rinv = 1/r` and `rsq = r²`, the energy added to the running
Coulomb total is `qq*(rinv + krf*rsq - crf)` and the scalar force factor
contributed is `qq*(r⁻³ - 2*krf)`, computed as
`qq*(rinv - 2*krf*rsq)*rinv*rinv`. -/
theorem reaction_field_eval (qq r krf crf : ℚ) (hr : r ≠ 0) :
    (∀ rinv rsq : ℚ,
      rfVcoul qq rinv rsq krf crf = qq * (rinv + krf * rsq - crf)) ∧
    rfFscal qq (1 / r) (r * r) krf = qq * (1 / r ^ 3 - 2 * krf) ∧
    (∀ rinv rsq : ℚ,
      rfFscal qq rinv rsq krf = qq * (rinv - 2 * krf * rsq) * rinv * rinv) := by
  refine ⟨?_, ?_, ?_⟩
  · intro rinv rsq
    unfold rfVcoul
    ring
  · unfold rfFscal rfFstmp
    field_simp
    ring
  · intro rinv rsq
    unfold rfFscal rfFstmp
    ring

/-- Witness for `reaction_field_eval` at `qq = 3`, `r = 2`, `krf = 5`,
`crf = 7`. -/
theorem reaction_field_eval_witness :
    (∀ rinv rsq : ℚ,
      rfVcoul 3 rinv rsq 5 7 = 3 * (rinv + 5 * rsq - 7)) ∧
    rfFscal 3 (1 / 2) (2 * 2) 5 = 3 * (1 / (2 : ℚ) ^ 3 - 2 * 5) ∧
    (∀ rinv rsq : ℚ,
      rfFscal 3 rinv rsq 5 = 3 * (rinv - 2 * 5 * rsq) * rinv * rinv) :=
  reaction_field_eval 3 2 5 7 (by norm_num)

/-- C5: the van-der-Waals energy contribution is `C12*rinv¹² - C6*rinv⁶` and
the scalar force factor contribution is `(12*C12*rinv¹² - 6*C6*rinv⁶)*rinv²`,
with the powers obtained by successive squaring of `rinv`. -/
theorem lj_successive_squaring (c6 c12 rinv fijC tsc : ℚ) :
    nb312_rinvsix rinv = rinv ^ 6 ∧
    nb312_rinvtwelve rinv = rinv ^ 12 ∧
    nb312_VvdwPair c6 c12 rinv = c12 * rinv ^ 12 - c6 * rinv ^ 6 ∧
    nb312_fscalOO c6 c12 rinv fijC tsc =
      (12 * c12 * rinv ^ 12 - 6 * c6 * rinv ^ 6) * rinv ^ 2 - fijC * tsc * rinv := by
  refine ⟨?_, ?_, ?_, ?_⟩ <;>
    · simp only [nb312_fscalOO, nb312_VvdwPair, nb312_rinvtwelve, nb312_rinvsix]
      ring

/-- C4: the scaled distance splits into integer index plus fractional
`eps ∈ [0,1)`; the potential is the Horner-form cubic
`Y + eps*(F + eps*(G + eps*H))` and the force factor is
`F + 2*eps*G + 3*eps²*H`, each then multiplied by the coupling coefficient,
the force factor additionally by the table scale. -/
theorem spline_table_eval (rt : ℚ) (hrt : 0 ≤ rt) :
    ((tabIndex rt : ℚ) + tabEps rt = rt ∧ 0 ≤ tabEps rt ∧ tabEps rt < 1) ∧
    (∀ (c : SplineRow) (eps : ℚ),
      tabVV c eps = c.Y + eps * (c.F + eps * (c.G + eps * c.H))) ∧
    (∀ (c : SplineRow) (eps : ℚ),
      tabFF c eps = c.F + 2 * eps * c.G + 3 * eps ^ 2 * c.H) ∧
    (∀ (c : SplineRow) (eps qq tsc : ℚ),
      (qq * tabFF c eps) * tsc =
        qq * (c.F + 2 * eps * c.G + 3 * eps ^ 2 * c.H) * tsc) := by
  have hfloor : ((⌊rt⌋.toNat : ℤ) : ℚ) = (⌊rt⌋ : ℚ) := by
    congr 1
    exact Int.toNat_of_nonneg (Int.floor_nonneg.mpr hrt)
  have hcast : ((tabIndex rt : ℕ) : ℚ) = (⌊rt⌋ : ℚ) := by
    rw [← hfloor]
    norm_cast
  refine ⟨⟨?_, ?_, ?_⟩, ?_, ?_, ?_⟩
  · unfold tabEps
    ring
  · unfold tabEps
    rw [hcast]
    have := Int.fract_nonneg rt
    unfold Int.fract at this
    linarith
  · unfold tabEps
    rw [hcast]
    have := Int.fract_lt_one rt
    unfold Int.fract at this
    linarith
  · intro c eps
    unfold tabVV
    ring
  · intro c eps
    unfold tabFF
    ring
  · intro c eps qq tsc
    unfold tabFF
    ring

/-- Witness for `spline_table_eval` at `rt = 7/2`. -/
theorem spline_table_eval_witness :
    ((tabIndex (7 / 2 : ℚ) : ℚ) + tabEps (7 / 2) = 7 / 2 ∧
      0 ≤ tabEps (7 / 2 : ℚ) ∧ tabEps (7 / 2 : ℚ) < 1) ∧
    (∀ (c : SplineRow) (eps : ℚ),
      tabVV c eps = c.Y + eps * (c.F + eps * (c.G + eps * c.H))) ∧
    (∀ (c : SplineRow) (eps : ℚ),
      tabFF c eps = c.F + 2 * eps * c.G + 3 * eps ^ 2 * c.H) ∧
    (∀ (c : SplineRow) (eps qq tsc : ℚ),
      (qq * tabFF c eps) * tsc =
        qq * (c.F + 2 * eps * c.G + 3 * eps ^ 2 * c.H) * tsc) :=
  spline_table_eval (7 / 2) (by norm_num)

/-- C2: the vector added into the i-site accumulator is exactly the vector
subtracted from the j slot, so for an isolated pair the accumulated force on
i is the negative of the accumulated force on j, in both kernel variants. -/
theorem newton_third_law (fscal : ℚ) (xi xj fi fj : Vec3) :
    (nb030_forceUpdate fscal xi xj fi fj).1 - fi =
      -((nb030_forceUpdate fscal xi xj fi fj).2 - fj) ∧
    (nb312_forceUpdateOO fscal xi xj fi).1 - fi =
      -(nb312_forceUpdateOO fscal xi xj fi).2 := by
  constructor <;>
    · simp only [nb030_forceUpdate, nb312_forceUpdateOO]
      ext <;> simp

theorem biUnion_update_union {T : ℕ} (f : Fin T → Finset ℕ) (i : Fin T)
    (A : Finset ℕ) :
    Finset.univ.biUnion (Function.update f i (f i ∪ A)) =
      Finset.univ.biUnion f ∪ A := by
  ext a
  simp only [Finset.mem_biUnion, Finset.mem_univ, true_and, Finset.mem_union]
  constructor
  · rintro ⟨j, hj⟩
    by_cases h : j = i
    · subst h
      rw [Function.update_same] at hj
      rcases Finset.mem_union.mp hj with h1 | h2
      · exact Or.inl ⟨j, h1⟩
      · exact Or.inr h2
    · rw [Function.update_noteq h] at hj
      exact Or.inl ⟨j, hj⟩
  · rintro (⟨j, hj⟩ | hA)
    · by_cases h : j = i
      · subst h
        exact ⟨j, by rw [Function.update_same]; exact Finset.mem_union_left _ hj⟩
      · exact ⟨j, by rw [Function.update_noteq h]; exact hj⟩
    · exact ⟨i, by rw [Function.update_same]; exact Finset.mem_union_right _ hA⟩

theorem schedInv_claimed_subset {T : ℕ} {nri : ℕ} {s : SchedState T}
    (h : SchedInv nri s) (i : Fin T) :
    s.claimed i ⊆ Finset.Ico 0 (min s.ctr nri) := by
  rw [← h.hunion]
  exact Finset.subset_biUnion_of_mem s.claimed (Finset.mem_univ i)

theorem schedInv_step {T : ℕ} (nri chunk : ℕ) {s : SchedState T}
    (h : SchedInv nri s) (i : Fin T) :
    SchedInv nri (claimStep nri chunk s i) := by
  refine ⟨?_, ?_, ?_⟩
  · intro j k hjk
    simp only [claimStep]
    have hold : ∀ m : Fin T, s.claimed m ⊆ Finset.Ico 0 (min s.ctr nri) :=
      schedInv_claimed_subset h
    have hdisj_new : ∀ m : Fin T,
        Disjoint (s.claimed m) (Finset.Ico s.ctr (min (s.ctr + chunk) nri)) := by
      intro m
      refine Finset.disjoint_left.mpr ?_
      intro a ha hb
      have h1 := hold m ha
      rw [Finset.mem_Ico] at h1
      rw [Finset.mem_Ico] at hb
      omega
    by_cases hj : j = i
    · subst hj
      rw [Function.update_same, Function.update_noteq (Ne.symm hjk)]
      exact Finset.disjoint_union_left.mpr
        ⟨h.hdisj j k hjk, (hdisj_new k).symm⟩
    · rw [Function.update_noteq hj]
      by_cases hk : k = i
      · subst hk
        rw [Function.update_same]
        exact Finset.disjoint_union_right.mpr ⟨h.hdisj j k hjk, hdisj_new j⟩
      · rw [Function.update_noteq hk]
        exact h.hdisj j k hjk
  · simp only [claimStep]
    rw [biUnion_update_union, h.hunion]
    ext a
    rw [Finset.mem_union, Finset.mem_Ico, Finset.mem_Ico, Finset.mem_Ico]
    omega
  · intro j hj
    simp only [claimStep] at hj
    by_cases hji : j = i
    · subst hji
      rw [if_pos rfl] at hj
      simp only [decide_eq_false_iff_not, not_lt] at hj
      simpa [claimStep] using hj
    · rw [if_neg hji] at hj
      have := h.hdead j hj
      simp only [claimStep]
      omega

theorem schedInv_init {T : ℕ} (nri : ℕ) : SchedInv nri (initSched T) := by
  refine ⟨?_, ?_, ?_⟩
  · intro i j _
    simp [initSched]
  · ext a
    simp [initSched]
  · intro i hi
    simp [initSched] at hi

theorem schedInv_run {T : ℕ} (nri chunk : ℕ) (s : SchedState T)
    (h : SchedInv nri s) (l : List (Fin T)) :
    SchedInv nri (runSched nri chunk s l) := by
  induction l generalizing s with
  | nil => exact h
  | cons i rest ih => exact ih _ (schedInv_step nri chunk h i)

theorem schedMeasure_step {T : ℕ} (nri chunk : ℕ) (hc : 0 < chunk)
    (s : SchedState T) (i : Fin T) (hi : s.live i = true) :
    schedMeasure nri (claimStep nri chunk s i) < schedMeasure nri s := by
  by_cases hcase : s.ctr + chunk < nri
  · have hlive : liveCount (claimStep nri chunk s i) = liveCount s := by
      unfold liveCount
      congr 1
      apply Finset.filter_congr
      intro j _
      simp only [claimStep]
      by_cases hji : j = i
      · subst hji
        simp [hcase, hi]
      · simp [hji]
    unfold schedMeasure
    rw [hlive]
    simp only [claimStep]
    omega
  · have hfilter : (Finset.univ.filter
        fun j => (claimStep nri chunk s i).live j = true) =
        (Finset.univ.filter fun j => s.live j = true).erase i := by
      ext j
      simp only [Finset.mem_filter, Finset.mem_univ, true_and,
        Finset.mem_erase, claimStep]
      by_cases hji : j = i
      · subst hji
        simp [hcase]
      · simp [hji]
    have hmem : i ∈ Finset.univ.filter fun j => s.live j = true := by
      simp [hi]
    have hcard : liveCount (claimStep nri chunk s i) = liveCount s - 1 := by
      unfold liveCount
      rw [hfilter, Finset.card_erase_of_mem hmem]
    have hpos : 0 < liveCount s := Finset.card_pos.mpr ⟨i, hmem⟩
    unfold schedMeasure
    rw [hcard]
    simp only [claimStep]
    omega

theorem effective_length {T : ℕ} (nri chunk : ℕ) (hc : 0 < chunk)
    (s : SchedState T) (l : List (Fin T))
    (he : effectiveRun nri chunk s l = true) :
    l.length ≤ schedMeasure nri s := by
  induction l generalizing s with
  | nil => simp
  | cons i rest ih =>
    simp only [effectiveRun, Bool.and_eq_true] at he
    have h1 := schedMeasure_step nri chunk hc s i he.1
    have h2 := ih _ he.2
    simp only [List.length_cons]
    omega

theorem exists_completion {T : ℕ} (nri chunk : ℕ) (hc : 0 < chunk)
    (s : SchedState T) :
    ∃ l : List (Fin T), effectiveRun nri chunk s l = true ∧
      ∀ i : Fin T, (runSched nri chunk s l).live i = false := by
  generalize hm : schedMeasure nri s = m
  induction m using Nat.strong_induction_on generalizing s with
  | _ m ih =>
    by_cases h : ∃ i : Fin T, s.live i = true
    · obtain ⟨i, hi⟩ := h
      have hlt : schedMeasure nri (claimStep nri chunk s i) < m := by
        rw [← hm]
        exact schedMeasure_step nri chunk hc s i hi
      obtain ⟨l, hl1, hl2⟩ := ih _ hlt (claimStep nri chunk s i) rfl
      refine ⟨i :: l, ?_, hl2⟩
      simp only [effectiveRun, Bool.and_eq_true]
      exact ⟨hi, hl1⟩
    · push_neg at h
      refine ⟨[], rfl, ?_⟩
      intro i
      have := h i
      simpa using this

/-- C1: for every `nri` and thread count `1..T`, under the CAS-retry claim
protocol (atomic bump by a positive chunk, clamp to `nri`, stop on empty
claim) the ranges claimed by all threads in any complete interleaving are
pairwise disjoint with union exactly `[0, nri)`; moreover every effective
schedule is bounded (`length ≤ nri + T`) and from any reachable state all
threads can run to their terminal state. -/
theorem work_stealing_partition (T nri chunk : ℕ) (hT : 0 < T)
    (hc : 0 < chunk) :
    (∀ sched : List (Fin T),
      (∀ i : Fin T, (runSched nri chunk (initSched T) sched).live i = false) →
      (∀ i j : Fin T, i ≠ j →
          Disjoint ((runSched nri chunk (initSched T) sched).claimed i)
            ((runSched nri chunk (initSched T) sched).claimed j)) ∧
        Finset.univ.biUnion (runSched nri chunk (initSched T) sched).claimed =
          Finset.Ico 0 nri) ∧
    (∀ sched : List (Fin T),
      effectiveRun nri chunk (initSched T) sched = true →
        sched.length ≤ nri + T) ∧
    (∀ sched : List (Fin T), ∃ ext : List (Fin T),
      effectiveRun nri chunk (runSched nri chunk (initSched T) sched) ext
          = true ∧
        ∀ i : Fin T,
          (runSched nri chunk (runSched nri chunk (initSched T) sched) ext).live
            i = false) := by
  refine ⟨?_, ?_, ?_⟩
  · intro sched hdone
    have hinv := schedInv_run nri chunk (initSched T) (schedInv_init nri) sched
    refine ⟨hinv.hdisj, ?_⟩
    have hctr : nri ≤ (runSched nri chunk (initSched T) sched).ctr := by
      obtain ⟨i⟩ := Fin.pos_iff_nonempty.mp hT
      exact hinv.hdead i (hdone i)
    rw [hinv.hunion]
    congr 1
    omega
  · intro sched he
    have h1 := effective_length nri chunk hc (initSched T) sched he
    have h2 : schedMeasure nri (initSched T) = nri + T := by
      unfold schedMeasure liveCount initSched
      simp
    omega
  · intro sched
    exact exists_completion nri chunk hc _

/-- Witness for `work_stealing_partition`: two threads, three outer entries,
chunk size one, the alternating complete schedule `[0, 1, 0, 1]`. -/
theorem work_stealing_partition_witness :
    Finset.univ.biUnion
        (runSched 3 1 (initSched 2)
          [(0 : Fin 2), 1, 0, 1]).claimed = Finset.Ico 0 3 :=
  (((work_stealing_partition 2 3 1 (by decide) (by decide)).1
    [(0 : Fin 2), 1, 0, 1]) (by decide)).2

theorem innerLoop_faction_frame (ctx : InnerCtx) (a : InnerAcc)
    (js : List ℕ) (k : ℕ) (hk : k ∉ js) :
    (innerLoop ctx a js).faction k = a.faction k := by
  induction js generalizing a with
  | nil => rfl
  | cons j rest ih =>
    have hkj : k ≠ j := fun h => hk (h ▸ List.mem_cons_self j rest)
    have hkrest : k ∉ rest := fun h => hk (List.mem_cons_of_mem j h)
    unfold innerLoop at ih ⊢
    simp only [List.foldl_cons]
    rw [ih _ hkrest]
    simp only [innerStep]
    rw [Function.update_noteq hkj]

/-- C8: an outer entry whose jindex range is empty
(`jindex[n+1] = jindex[n]`) contributes zero to the i-particle force, the
shift-force accumulator and the energy slot — the per-entry accumulators
are zeroed at entry start and only those zeros are flushed — leaving all
output arrays exactly as they were. -/
theorem zero_length_inner_range (P : KernelParams) (A : OuterArrays) (n : ℕ)
    (h : P.jindex (n + 1) = P.jindex n) :
    processOuter P A n = A := by
  have hjs : entryJs P n = [] := by
    unfold entryJs
    rw [h]
    simp
  have hr : entryInner P A n =
      { fi := 0, Vvdwtot := 0, faction := A.faction } := by
    unfold entryInner innerLoop
    rw [hjs]
    rfl
  unfold processOuter
  rw [hr]
  obtain ⟨fa, fs, vv⟩ := A
  simp only [OuterArrays.mk.injEq]
  refine ⟨?_, ?_, ?_⟩
  · rw [Vec3.add_zero, Function.update_eq_self]
  · rw [Vec3.add_zero, Function.update_eq_self]
  · rw [add_zero, Function.update_eq_self]

/-- Witness for `zero_length_inner_range` on concrete parameters with an
everywhere-empty jindex range. -/
theorem zero_length_inner_range_witness :
    processOuter emptyJParams zeroArrays 0 = zeroArrays :=
  zero_length_inner_range emptyJParams zeroArrays 0 rfl

/-- C9: during an outer entry's inner loop the i-force is accumulated only
in the per-entry local accumulator; at entry end the same summed 3-vector
is added exactly once to `faction` at the i particle and exactly once to
`fshift` at the entry's shift index, while the inner loop writes `faction`
only at j slots (so, with no self-pair, the global i slot is untouched
until the flush) and never writes `fshift` at all. -/
theorem iforce_single_flush (P : KernelParams) (A : OuterArrays) (n : ℕ)
    (hii : P.iinr n ∉ entryJs P n) :
    (processOuter P A n).faction (P.iinr n) =
      A.faction (P.iinr n) + (entryInner P A n).fi ∧
    (processOuter P A n).fshift (P.shiftIdx n) =
      A.fshift (P.shiftIdx n) + (entryInner P A n).fi ∧
    (∀ m : ℕ, m ≠ P.shiftIdx n →
      (processOuter P A n).fshift m = A.fshift m) ∧
    (∀ k : ℕ, k ∉ entryJs P n → k ≠ P.iinr n →
      (processOuter P A n).faction k = A.faction k) := by
  have hframe : (entryInner P A n).faction (P.iinr n) = A.faction (P.iinr n) :=
    innerLoop_faction_frame _ _ _ _ hii
  refine ⟨?_, ?_, ?_, ?_⟩
  · unfold processOuter
    simp only [Function.update_same]
    rw [hframe]
  · unfold processOuter
    simp only [Function.update_same]
  · intro m hm
    unfold processOuter
    simp only
    rw [Function.update_noteq hm]
  · intro k hk1 hk2
    unfold processOuter
    simp only
    rw [Function.update_noteq hk2]
    exact innerLoop_faction_frame _ _ _ _ hk1

/-- Witness for `iforce_single_flush` on concrete parameters whose entry 0
has the single j partner `5` (and i particle `0`). -/
theorem iforce_single_flush_witness :
    (processOuter oneJParams zeroArrays 0).faction (oneJParams.iinr 0) =
      zeroArrays.faction (oneJParams.iinr 0) +
        (entryInner oneJParams zeroArrays 0).fi ∧
    (processOuter oneJParams zeroArrays 0).fshift (oneJParams.shiftIdx 0) =
      zeroArrays.fshift (oneJParams.shiftIdx 0) +
        (entryInner oneJParams zeroArrays 0).fi ∧
    (∀ m : ℕ, m ≠ oneJParams.shiftIdx 0 →
      (processOuter oneJParams zeroArrays 0).fshift m = zeroArrays.fshift m) ∧
    (∀ k : ℕ, k ∉ entryJs oneJParams 0 → k ≠ oneJParams.iinr 0 →
      (processOuter oneJParams zeroArrays 0).faction k =
        zeroArrays.faction k) :=
  iforce_single_flush oneJParams zeroArrays 0 (by decide)

@[simp] theorem Quad.qadd_def (a b : Quad) :
    a + b = ⟨a.e0 + b.e0, a.e1 + b.e1, a.e2 + b.e2, a.e3 + b.e3⟩ := rfl

@[simp] theorem Quad.qsub_def (a b : Quad) :
    a - b = ⟨a.e0 - b.e0, a.e1 - b.e1, a.e2 - b.e2, a.e3 - b.e3⟩ := rfl

@[simp] theorem Quad.qmul_def (a b : Quad) :
    a * b = ⟨a.e0 * b.e0, a.e1 * b.e1, a.e2 * b.e2, a.e3 * b.e3⟩ := rfl

@[simp] theorem Quad.splat_def (c : ℚ) : Quad.splat c = ⟨c, c, c, c⟩ := rfl

@[simp] theorem Quad.hsum_def (q : Quad) :
    q.hsum = q.e0 + q.e1 + q.e2 + q.e3 := rfl

set_option maxHeartbeats 1600000 in
theorem dosingleQ_lane0 (ctx : InnerCtx) (u : ℕ → ℚ) (a : ℕ) :
    (dosingleQ ctx u a).tx.e0 = (pairEval ctx a).1.x ∧
    (dosingleQ ctx u a).ty.e0 = (pairEval ctx a).1.y ∧
    (dosingleQ ctx u a).tz.e0 = (pairEval ctx a).1.z ∧
    (dosingleQ ctx u a).vv6.e0 + (dosingleQ ctx u a).vv12.e0 =
      (pairEval ctx a).2 := by
  simp only [dosingleQ, pairEval, rinvQuad, quadFF, quadVV, tabFF, tabVV,
    Quad.qadd_def, Quad.qsub_def, Quad.qmul_def, Quad.splat_def,
    Vec3.sub_def, Vec3.smul_def]
  refine ⟨?_, ?_, ?_, ?_⟩ <;> ring

set_option maxHeartbeats 1600000 in
theorem dopairQ_lane0 (ctx : InnerCtx) (u : ℕ → ℚ) (a b : ℕ) :
    (dopairQ ctx u a b).tx.e0 = (pairEval ctx a).1.x ∧
    (dopairQ ctx u a b).ty.e0 = (pairEval ctx a).1.y ∧
    (dopairQ ctx u a b).tz.e0 = (pairEval ctx a).1.z ∧
    (dopairQ ctx u a b).vv6.e0 + (dopairQ ctx u a b).vv12.e0 =
      (pairEval ctx a).2 := by
  simp only [dopairQ, pairEval, rinvQuad, quadFF, quadVV, tabFF, tabVV,
    Quad.qadd_def, Quad.qsub_def, Quad.qmul_def, Quad.splat_def,
    Vec3.sub_def, Vec3.smul_def]
  refine ⟨?_, ?_, ?_, ?_⟩ <;> ring

set_option maxHeartbeats 1600000 in
theorem dopairQ_lane1 (ctx : InnerCtx) (u : ℕ → ℚ) (a b : ℕ) :
    (dopairQ ctx u a b).tx.e1 = (pairEval ctx b).1.x ∧
    (dopairQ ctx u a b).ty.e1 = (pairEval ctx b).1.y ∧
    (dopairQ ctx u a b).tz.e1 = (pairEval ctx b).1.z ∧
    (dopairQ ctx u a b).vv6.e1 + (dopairQ ctx u a b).vv12.e1 =
      (pairEval ctx b).2 := by
  simp only [dopairQ, pairEval, rinvQuad, quadFF, quadVV, tabFF, tabVV,
    Quad.qadd_def, Quad.qsub_def, Quad.qmul_def, Quad.splat_def,
    Vec3.sub_def, Vec3.smul_def]
  refine ⟨?_, ?_, ?_, ?_⟩ <;> ring

set_option maxHeartbeats 1600000 in
theorem dopairQ_junk_lanes (ctx : InnerCtx) (u : ℕ → ℚ) (a b : ℕ) :
    (dopairQ ctx u a b).tx.e2 = 0 ∧ (dopairQ ctx u a b).tx.e3 = 0 ∧
    (dopairQ ctx u a b).ty.e2 = 0 ∧ (dopairQ ctx u a b).ty.e3 = 0 ∧
    (dopairQ ctx u a b).tz.e2 = 0 ∧ (dopairQ ctx u a b).tz.e3 = 0 ∧
    (dopairQ ctx u a b).vv6.e2 = 0 ∧ (dopairQ ctx u a b).vv6.e3 = 0 ∧
    (dopairQ ctx u a b).vv12.e2 = 0 ∧ (dopairQ ctx u a b).vv12.e3 = 0 := by
  simp only [dopairQ, quadFF, quadVV, Quad.qadd_def, Quad.qsub_def,
    Quad.qmul_def, Quad.splat_def]
  refine ⟨?_, ?_, ?_, ?_, ?_, ?_, ?_, ?_, ?_, ?_⟩ <;> ring

theorem dosingle_obs (ctx : InnerCtx) (u : ℕ → ℚ) (S : TailState) (a : ℕ) :
    tailObs (dosingle ctx u S a) = innerStep ctx (tailObs S) a := by
  obtain ⟨hx, hy, hz, hv⟩ := dosingleQ_lane0 ctx u a
  have ht : (⟨(dosingleQ ctx u a).tx.e0, (dosingleQ ctx u a).ty.e0,
      (dosingleQ ctx u a).tz.e0⟩ : Vec3) = (pairEval ctx a).1 := by
    rw [hx, hy, hz]
  simp only [tailObs, dosingle, innerStep, Quad.hsum_def, Vec3.add_def,
    InnerAcc.mk.injEq]
  refine ⟨?_, ?_, ?_⟩
  · simp only [Vec3.mk.injEq]
    refine ⟨?_, ?_, ?_⟩
    · linear_combination hx
    · linear_combination hy
    · linear_combination hz
  · linear_combination hv
  · rw [ht]

theorem dopair_obs (ctx : InnerCtx) (u : ℕ → ℚ) (S : TailState) (a b : ℕ) :
    tailObs (dopair ctx u S a b) =
      innerStep ctx (innerStep ctx (tailObs S) a) b := by
  obtain ⟨hx0, hy0, hz0, hv0⟩ := dopairQ_lane0 ctx u a b
  obtain ⟨hx1, hy1, hz1, hv1⟩ := dopairQ_lane1 ctx u a b
  obtain ⟨jx2, jx3, jy2, jy3, jz2, jz3, jv62, jv63, jv122, jv123⟩ :=
    dopairQ_junk_lanes ctx u a b
  have hta : (⟨(dopairQ ctx u a b).tx.e0, (dopairQ ctx u a b).ty.e0,
      (dopairQ ctx u a b).tz.e0⟩ : Vec3) = (pairEval ctx a).1 := by
    rw [hx0, hy0, hz0]
  have htb : (⟨(dopairQ ctx u a b).tx.e1, (dopairQ ctx u a b).ty.e1,
      (dopairQ ctx u a b).tz.e1⟩ : Vec3) = (pairEval ctx b).1 := by
    rw [hx1, hy1, hz1]
  simp only [tailObs, dopair, innerStep, Quad.hsum_def, Quad.qadd_def,
    Vec3.add_def, InnerAcc.mk.injEq]
  refine ⟨?_, ?_, ?_⟩
  · simp only [Vec3.mk.injEq]
    refine ⟨?_, ?_, ?_⟩
    · linear_combination hx0 + hx1 + jx2 + jx3
    · linear_combination hy0 + hy1 + jy2 + jy3
    · linear_combination hz0 + hz1 + jz2 + jz3
  · linear_combination hv0 + hv1 + jv62 + jv63 + jv122 + jv123
  · rw [hta, htb]

/-- C7: for every remainder `N` of inner j entries with `1 ≤ N ≤ 3`, the
dispatched tail paths (`dopair` when bit 1 of `N` is set, `dosingle` when
bit 0 is set) process each remaining j entry exactly once, and the
horizontally summed forces and energies and the j-force array they produce
equal a reference computation of `N` separate single-pair evaluations —
for every assignment of the garbage lanes (junk supplies `upair`,
`usingle`), so garbage never affects a real lane's output. -/
theorem tail_paths_equiv (ctx : InnerCtx) (upair usingle : ℕ → ℚ)
    (S : TailState) (ks : List ℕ) (h1 : 1 ≤ ks.length)
    (h3 : ks.length ≤ 3) :
    tailObs (finishInner ctx upair usingle S ks) =
      innerLoop ctx (tailObs S) ks := by
  rcases ks with _ | ⟨a, _ | ⟨b, _ | ⟨c, _ | ⟨d, rest⟩⟩⟩⟩
  · simp at h1
  · have hfi : finishInner ctx upair usingle S [a] = dosingle ctx usingle S a := by
      unfold finishInner
      simp [show (1 : ℕ) &&& 2 = 0 from by decide,
        show (1 : ℕ) &&& 1 = 1 from by decide]
    rw [hfi, dosingle_obs]
    rfl
  · have hfi : finishInner ctx upair usingle S [a, b] = dopair ctx upair S a b := by
      unfold finishInner
      simp [show (2 : ℕ) &&& 2 = 2 from by decide,
        show (2 : ℕ) &&& 1 = 0 from by decide]
    rw [hfi, dopair_obs]
    rfl
  · have hfi : finishInner ctx upair usingle S [a, b, c] =
        dosingle ctx usingle (dopair ctx upair S a b) c := by
      unfold finishInner
      simp [show (3 : ℕ) &&& 2 = 2 from by decide,
        show (3 : ℕ) &&& 1 = 1 from by decide]
    rw [hfi, dosingle_obs, dopair_obs]
    rfl
  · simp only [List.length_cons] at h3
    omega

/-- Witness for `tail_paths_equiv`: the single remaining partner `5` of
`oneJParams`' entry 0, junk lanes filled with `3` and `4`. -/
theorem tail_paths_equiv_witness :
    tailObs (finishInner (mkInnerCtx oneJParams 0) (fun _ => 3) (fun _ => 4)
        zeroTail [5]) =
      innerLoop (mkInnerCtx oneJParams 0) (tailObs zeroTail) [5] :=
  tail_paths_equiv (mkInnerCtx oneJParams 0) (fun _ => 3) (fun _ => 4)
    zeroTail [5] (by decide) (by decide)

/-- C10: the rigid-water kernels read charge and Lennard-Jones type once,
from `iinr[0]`, before the thread loop: `qqOO = facel*qO²`,
`qqOH = facel*qO*qH`, `qqHH = facel*qH²` and one `(c6, c12)` pair indexed
by `type[iinr[0]]`; every site pair of every outer entry then uses these
constants — the energies are unchanged under arbitrary modification of the
charge/type data of any other particle (no per-j lookup). -/
theorem water_params_from_first_particle
    (charge chargeB : ℕ → ℚ) (typ typB : ℕ → ℕ) (vdwparam : ℕ → ℚ)
    (facel : ℚ) (ntype : ℕ) (iinr : ℕ → ℕ)
    (hq0 : chargeB (iinr 0) = charge (iinr 0))
    (hq1 : chargeB (iinr 0 + 1) = charge (iinr 0 + 1))
    (ht : typB (iinr 0) = typ (iinr 0)) :
    (waterSetup charge typ vdwparam facel ntype iinr).qqOO =
        facel * charge (iinr 0) * charge (iinr 0) ∧
    (waterSetup charge typ vdwparam facel ntype iinr).qqOH =
        facel * charge (iinr 0) * charge (iinr 0 + 1) ∧
    (waterSetup charge typ vdwparam facel ntype iinr).qqHH =
        facel * charge (iinr 0 + 1) * charge (iinr 0 + 1) ∧
    (waterSetup charge typ vdwparam facel ntype iinr).c6 =
        vdwparam (2 * typ (iinr 0) + 2 * typ (iinr 0) * ntype) ∧
    (waterSetup charge typ vdwparam facel ntype iinr).c12 =
        vdwparam (2 * typ (iinr 0) + 2 * typ (iinr 0) * ntype + 1) ∧
    waterSetup chargeB typB vdwparam facel ntype iinr =
        waterSetup charge typ vdwparam facel ntype iinr ∧
    (∀ (tab : ℕ → SplineRow) (tsc : ℚ) (seed : ℚ → ℚ) (pos : ℕ → Vec3)
        (entries : List (ℕ × List ℕ)),
      kernelWaterEnergies chargeB typB vdwparam facel ntype iinr
          tab tsc seed pos entries =
        kernelWaterEnergies charge typ vdwparam facel ntype iinr
          tab tsc seed pos entries) := by
  have hsetup : waterSetup chargeB typB vdwparam facel ntype iinr =
      waterSetup charge typ vdwparam facel ntype iinr := by
    simp only [waterSetup, hq0, hq1, ht]
  refine ⟨?_, ?_, ?_, ?_, ?_, hsetup, ?_⟩
  · unfold waterSetup
    ring
  · unfold waterSetup
    ring
  · unfold waterSetup
    ring
  · rfl
  · rfl
  · intro tab tsc seed pos entries
    unfold kernelWaterEnergies
    rw [hsetup]

/-- Witness for `water_params_from_first_particle`: the `B` data agree with
the original only at particles `0` and `1` (with `iinr 0 = 0`) and differ
everywhere else. -/
theorem water_params_from_first_particle_witness :
    (waterSetup (fun _ => 1) (fun _ => 0) (fun _ => 0) 1 1 (fun _ => 0)).qqOO =
        1 * (1 : ℚ) * 1 ∧
    (waterSetup (fun _ => 1) (fun _ => 0) (fun _ => 0) 1 1 (fun _ => 0)).qqOH =
        1 * (1 : ℚ) * 1 ∧
    (waterSetup (fun _ => 1) (fun _ => 0) (fun _ => 0) 1 1 (fun _ => 0)).qqHH =
        1 * (1 : ℚ) * 1 ∧
    (waterSetup (fun _ => 1) (fun _ => 0) (fun _ => 0) 1 1 (fun _ => 0)).c6 =
        (fun _ => (0 : ℚ)) (2 * 0 + 2 * 0 * 1) ∧
    (waterSetup (fun _ => 1) (fun _ => 0) (fun _ => 0) 1 1 (fun _ => 0)).c12 =
        (fun _ => (0 : ℚ)) (2 * 0 + 2 * 0 * 1 + 1) ∧
    waterSetup (fun n => if n < 2 then 1 else 99) (fun n => if n < 1 then 0 else 7)
        (fun _ => 0) 1 1 (fun _ => 0) =
      waterSetup (fun _ => 1) (fun _ => 0) (fun _ => 0) 1 1 (fun _ => 0) ∧
    (∀ (tab : ℕ → SplineRow) (tsc : ℚ) (seed : ℚ → ℚ) (pos : ℕ → Vec3)
        (entries : List (ℕ × List ℕ)),
      kernelWaterEnergies (fun n => if n < 2 then 1 else 99)
          (fun n => if n < 1 then 0 else 7) (fun _ => 0) 1 1 (fun _ => 0)
          tab tsc seed pos entries =
        kernelWaterEnergies (fun _ => 1) (fun _ => 0) (fun _ => 0) 1 1
          (fun _ => 0) tab tsc seed pos entries) :=
  water_params_from_first_particle (fun _ => 1)
    (fun n => if n < 2 then 1 else 99) (fun _ => 0)
    (fun n => if n < 1 then 0 else 7) (fun _ => 0) 1 1 (fun _ => 0)
    (by decide) (by decide) (by decide)

end NB
